import Mathlib

/-!
Verification development for the `ai_self_enhancement` capability plugin system:
a shallow embedding of `capability_registry.py`, `capability_loader.py`,
`data_persistence.py`, `self_reflection.py` and `ai_core.py`, together with
theorems settling the specified properties of the catalog, the persistence
layer, the execution cycle, the analytics and the insight dispatcher.
-/

namespace AISE

/-- Python runtime values that flow through performance entries and call
arguments: `None`, strings, numbers (modelled as rationals) and booleans. -/
inductive PyVal where
  | none
  | str (s : String)
  | num (q : Rat)
  | bool (b : Bool)
  deriving Repr, DecidableEq

/-- Python exceptions that the embedded code can raise. -/
inductive PyErr where
  | typeError
  | keyError
  | attributeError
  deriving Repr, DecidableEq

/-- Model of Python `str.startswith`: prefix test on the character list. -/
def strStartsWith (s p : String) : Bool :=
  p.data.isPrefixOf s.data

/-- Model of Python `str.endswith`: suffix test on the character list. -/
def strEndsWith (s p : String) : Bool :=
  p.data.reverse.isPrefixOf s.data.reverse

/-- Model of Python `str.strip()`: drop leading and trailing whitespace. -/
def pyStrip (s : String) : String :=
  ⟨((s.data.dropWhile Char.isWhitespace).reverse.dropWhile Char.isWhitespace).reverse⟩

/-- Lookup in a Python dict modelled as an association list (first match). -/
def dictGet : List (String × α) → String → Option α
  | [], _ => Option.none
  | (k', v) :: rest, k => if k' = k then some v else dictGet rest k

/-- Python dict assignment `d[k] = v`: replace in place when the key is
present, append at the end otherwise (insertion order is preserved). -/
def dictSet : List (String × α) → String → α → List (String × α)
  | [], k, v => [(k, v)]
  | (k', v') :: rest, k, v =>
    if k' = k then (k, v) :: rest else (k', v') :: dictSet rest k v

/-- Python `del d[k]`: remove the binding of `k` (keys are unique in a dict,
so removing the first match is exact). -/
def dictDel : List (String × α) → String → List (String × α)
  | [], _ => []
  | (k', v') :: rest, k => if k' = k then rest else (k', v') :: dictDel rest k

/-! ## data_persistence.py -/

/-- `DATA_VERSION` from `data_persistence.py`. -/
def DATA_VERSION : String := "1.0"

/-- One persisted capability record `{"type": "capability", "name": ...,
"description": ...}` as written by `CapabilityRegistry._save_capabilities`. -/
structure CapRecord where
  name : String
  description : String
  deriving Repr, DecidableEq

/-- The JSON value stored under the `performance_data` key of a snapshot file:
`ai_core` saves dicts of metrics, while `CapabilityRegistry._save_capabilities`
passes a list of capability records to the same `save_performance_data`. -/
inductive PerfPayload where
  | pdict (entries : List (String × PyVal))
  | plist (records : List CapRecord)
  deriving Repr, DecidableEq

/-- A parsed JSON snapshot file sitting in the data directory.  `version` is
`data.get("version")` and `payload` is the value under `performance_data`
when that key is present. -/
structure DataFile where
  filename : String
  version : Option String
  payload : Option PerfPayload
  deriving Repr, DecidableEq

/-- `is_compatible_version`: `data.get("version") == DATA_VERSION`. -/
def is_compatible_version (f : DataFile) : Bool :=
  f.version = some DATA_VERSION

/-- The filename filter of `load_performance_data`:
`filename.startswith("performance_") and filename.endswith(".json")`. -/
def isPerfFilename (filename : String) : Bool :=
  strStartsWith filename "performance_" && strEndsWith filename ".json"

/-- `load_performance_data`: walk every file of the data directory, keep the
`performance_*.json` ones, skip snapshots whose version is incompatible, and
append each remaining file's whole `performance_data` value (defaulting to an
empty dict) as one element of the result. -/
def load_performance_data : List DataFile → List PerfPayload
  | [] => []
  | f :: fs =>
    if isPerfFilename f.filename then
      if is_compatible_version f then
        f.payload.getD (PerfPayload.pdict []) :: load_performance_data fs
      else
        load_performance_data fs
    else
      load_performance_data fs

/-- `save_performance_data`: write one fresh `performance_<timestamp>.json`
file holding `{"version": DATA_VERSION, "performance_data": payload}`. -/
def save_performance_data (ts : String) (payload : PerfPayload) : DataFile :=
  { filename := "performance_" ++ ts ++ ".json"
    version := some DATA_VERSION
    payload := some payload }

/-! ## capability_registry.py -/

/-- The value stored under a capability name in `CapabilityRegistry.capabilities`:
`{"description": ..., "function": ...}`.  The invocable handle is modelled by
the opaque identifier the loader resolved it to. -/
structure CapInfo where
  description : String
  function : String
  deriving Repr, DecidableEq

/-- The in-memory catalog `self.capabilities`, a Python dict in insertion
order. -/
abbrev Catalog := List (String × CapInfo)

/-- The loader state `CapabilityLoader.capabilities`: qualified name to the
identifier of the invocable object. -/
abbrev Loader := List (String × String)

/-- The distinct causes that `add_capability` and `remove_capability` convert
into a raised `CapabilityError` (the Python code re-wraps every cause into
`CapabilityError`; the constructor records which message was produced). -/
inductive RegError where
  | invalidName
  | duplicate (name : String)
  | notInLoader (name : String)
  | persistence
  deriving Repr, DecidableEq

/-- `CapabilityRegistry.add_capability(name, description)`.  `saveOk` is the
outcome of the `_save_capabilities` call (`false` models a raised
`DataPersistenceError`).  The result pairs the surfaced outcome with the
post-call in-memory catalog: the source assigns
`self.capabilities[name] = ...` before `_save_capabilities()`, and the
`except` clause re-raises without undoing the assignment, so a failed save
leaves the new entry in memory.  The `if not function` branch of the source is
unreachable because `CapabilityLoader.get_capability` raises instead of
returning a falsy value. -/
def add_capability (loader : Loader) (caps : Catalog) (name description : String)
    (saveOk : Bool) : Except RegError Unit × Catalog :=
  if (pyStrip name) = "" then (Except.error RegError.invalidName, caps)
  else if (dictGet caps name).isSome then (Except.error (RegError.duplicate name), caps)
  else
    match dictGet loader name with
    | Option.none => (Except.error (RegError.notInLoader name), caps)
    | some f =>
      let caps' := dictSet caps name ⟨description, f⟩
      if saveOk then (Except.ok (), caps')
      else (Except.error RegError.persistence, caps')

/-- `CapabilityRegistry.remove_capability(name)`: returns `True` after
deleting and re-persisting, `False` when the name is absent; a failed save
raises after the in-memory deletion already happened. -/
def remove_capability (caps : Catalog) (name : String) (saveOk : Bool) :
    Except RegError Bool × Catalog :=
  if (dictGet caps name).isSome then
    let caps' := dictDel caps name
    if saveOk then (Except.ok true, caps')
    else (Except.error RegError.persistence, caps')
  else (Except.ok false, caps)

/-- `CapabilityRegistry.list_capabilities`: name to description, in catalog
order. -/
def list_capabilities (caps : Catalog) : List (String × String) :=
  caps.map (fun p => (p.1, p.2.description))

/-- `CapabilityRegistry._save_capabilities`: project the catalog onto
`{"type": "capability", "name": ..., "description": ...}` records and hand
the resulting list to `save_performance_data`. -/
def save_capabilities (caps : Catalog) (ts : String) : DataFile :=
  save_performance_data ts
    (PerfPayload.plist (caps.map (fun p => ⟨p.1, p.2.description⟩)))

/-- Errors escaping `CapabilityRegistry._load_capabilities` (no handler in
`__init__` catches them). -/
inductive LoadCapError where
  | attributeError
  | keyError
  | notInLoader (name : String)
  deriving Repr, DecidableEq

/-- `CapabilityRegistry._load_capabilities`: iterate over the entries returned
by `load_performance_data` and rebuild the catalog from those with
`entry.get("type") == "capability"`.  An entry that is a Python list (not a
dict) has no `.get` attribute, so the iteration raises `AttributeError`; a
capability entry whose name the loader cannot resolve raises the loader's
`CapabilityError`. -/
def load_capabilities (loader : Loader) (acc : Catalog) :
    List PerfPayload → Except LoadCapError Catalog
  | [] => Except.ok acc
  | entry :: rest =>
    match entry with
    | PerfPayload.plist _ => Except.error LoadCapError.attributeError
    | PerfPayload.pdict d =>
      if dictGet d "type" = some (PyVal.str "capability") then
        match dictGet d "name", dictGet d "description" with
        | some (PyVal.str n), some (PyVal.str desc) =>
          match dictGet loader n with
          | Option.none => Except.error (LoadCapError.notInLoader n)
          | some f => load_capabilities loader (dictSet acc n ⟨desc, f⟩) rest
        | _, _ => Except.error LoadCapError.keyError
      else
        load_capabilities loader acc rest

/-! ## self_reflection.py -/

/-- One entry of `SelfReflection.performance_logs` as built by
`log_performance`: `{"timestamp", "task_name", "result", "execution_time"}`. -/
structure PerfLog where
  timestamp : String
  task_name : String
  result : PyVal
  execution_time : Rat
  deriving Repr, DecidableEq

/-- One entry of `SelfReflection.project_management_logs`.  Absent keys are
`Option.none`; `analyze_project_management_performance` reads them with
`log.get(...)` defaults, except `log["timestamp"]` which must be present. -/
structure PMLog where
  timestamp : String
  action : Option String
  priority : Option String
  tokens_used : Option Rat
  deriving Repr, DecidableEq

/-- The mutable state of a `SelfReflection` object. -/
structure ReflState where
  performance_logs : List PerfLog
  project_management_logs : List PMLog
  deriving Repr, DecidableEq

/-- `SelfReflection.log_performance(task_name, result, execution_time)`: build
the log entry and append it.  The source performs no validation of any kind
before the append; `ts` is the `get_timestamp()` value. -/
def log_performance (st : ReflState) (ts task_name : String) (result : PyVal)
    (execution_time : Rat) : ReflState :=
  { st with
    performance_logs :=
      st.performance_logs ++ [⟨ts, task_name, result, execution_time⟩] }

/-- Result of `SelfReflection.analyze_performance`: either the
`{"message": "No performance data available."}` dict or the stats dict with
`total_tasks`, `total_execution_time` and `average_execution_time`. -/
inductive PerfAnalysis where
  | noData
  | stats (total_tasks : Nat) (total_execution_time average_execution_time : Rat)
  deriving Repr, DecidableEq

/-- `SelfReflection.analyze_performance`. -/
def analyze_performance (st : ReflState) : PerfAnalysis :=
  if st.performance_logs.isEmpty then PerfAnalysis.noData
  else
    let total_tasks := st.performance_logs.length
    let total_execution_time := (st.performance_logs.map (·.execution_time)).sum
    PerfAnalysis.stats total_tasks total_execution_time
      (total_execution_time / total_tasks)

/-- The stats dict built by `analyze_project_management_performance` on a
non-empty history. -/
structure PMStats where
  total_tasks : Nat
  completed_tasks : Nat
  completion_rate : Rat
  priority_distribution : List (String × Nat)
  progress_over_time : List (String × Rat)
  token_usage_over_time : List (String × Rat)
  total_tokens_used : Rat
  deriving Repr, DecidableEq

/-- Result of `analyze_project_management_performance`: the
`{"message": "No project management data available."}` dict or the stats. -/
inductive PMAnalysis where
  | noData
  | stats (s : PMStats)
  deriving Repr, DecidableEq

/-- The per-log loop of `analyze_project_management_performance`: threads the
priority distribution, the two time series and the token total.  Python
raises `KeyError` on `priority_distribution[priority] += 1` when the priority
tag is none of `High`, `Medium`, `Low`. -/
def pm_loop (completed total : Nat) :
    List PMLog → List (String × Nat) → List (String × Rat) → List (String × Rat) → Rat →
    Except PyErr (List (String × Nat) × List (String × Rat) × List (String × Rat) × Rat)
  | [], pd, prog, tok, tt => Except.ok (pd, prog, tok, tt)
  | l :: ls, pd, prog, tok, tt =>
    let priority := l.priority.getD "Medium"
    match dictGet pd priority with
    | Option.none => Except.error PyErr.keyError
    | some c =>
      let used := l.tokens_used.getD 0
      pm_loop completed total ls (dictSet pd priority (c + 1))
        (prog ++ [(l.timestamp, (completed : Rat) / (total : Rat) * 100)])
        (tok ++ [(l.timestamp, used)]) (tt + used)

/-- `SelfReflection.analyze_project_management_performance`. -/
def analyze_project_management_performance (st : ReflState) :
    Except PyErr PMAnalysis :=
  if st.project_management_logs.isEmpty then Except.ok PMAnalysis.noData
  else
    let total := st.project_management_logs.length
    let completed :=
      (st.project_management_logs.filter (fun l => l.action = some "complete_task")).length
    match pm_loop completed total st.project_management_logs
        [("High", 0), ("Medium", 0), ("Low", 0)] [] [] 0 with
    | Except.error e => Except.error e
    | Except.ok (pd, prog, tok, tt) =>
      Except.ok (PMAnalysis.stats
        ⟨total, completed, (completed : Rat) / (total : Rat), pd, prog, tok, tt⟩)

/-- `SelfReflection.suggest_improvements`: read the two analyses through
`dict.get(key, 0)` defaults (a no-data message dict yields the default `0`)
and collect every triggered suggestion string. -/
def suggest_improvements (st : ReflState) : Except PyErr (List String) :=
  let pa := analyze_performance st
  match analyze_project_management_performance st with
  | Except.error e => Except.error e
  | Except.ok pma =>
    let avg : Rat := match pa with
      | PerfAnalysis.noData => 0
      | PerfAnalysis.stats _ _ a => a
    let rate : Rat := match pma with
      | PMAnalysis.noData => 0
      | PMAnalysis.stats s => s.completion_rate
    let toks : Rat := match pma with
      | PMAnalysis.noData => 0
      | PMAnalysis.stats s => s.total_tokens_used
    Except.ok
      ((if avg > 1 then ["Consider optimizing task execution for better performance."] else [])
        ++ (if rate < mkRat 4 5 then ["Improve task completion rate in project management."] else [])
        ++ (if toks > 10000 then ["Look into reducing token usage for more efficient operations."] else []))

/-! ## ai_core.py: the execution cycle -/

/-- The positional parameters of `SelfReflection.log_performance` (beyond
`self`); the method declares no other parameter and no defaults. -/
def log_performance_params : List String := ["task_name", "result", "execution_time"]

/-- The Python call protocol for a function with positional parameter list
`params`, no defaults and no `**kwargs`: bind positionals left to right, then
keywords; the call raises `TypeError` (`Option.none` here) on an unexpected
keyword, a doubly-bound parameter, or a parameter left unbound. -/
def bindCall (params : List String) (pos : List PyVal) (kw : List (String × PyVal)) :
    Option (List (String × PyVal)) :=
  if params.length < pos.length then Option.none
  else
    let bound := (params.take pos.length).zip pos
    let step : Option (List (String × PyVal)) → String × PyVal → Option (List (String × PyVal)) :=
      fun acc kv =>
        match acc with
        | Option.none => Option.none
        | some b =>
          if params.any (fun p => p = kv.1) then
            if b.any (fun p => p.1 = kv.1) then Option.none else some (b ++ [kv])
          else Option.none
    match kw.foldl step (some bound) with
    | Option.none => Option.none
    | some b =>
      if params.all (fun p => b.any (fun q => q.1 = p)) then some b else Option.none

/-- `AICore.execute_task_cycle`: iterate over
`capability_registry.list_capabilities()`.  Per capability,
`execute_capability` catches the invocable failure internally and reports a
`result`/`execution_time` dict either way (`outcome` gives that pair), after
which the source calls
`log_performance(name, result, execution_time, category="capability_execution")`;
the call is modelled through the Python binding protocol `bindCall`, and any
exception it raises is caught by the per-capability `except`, which logs and
continues with the next capability, recording nothing. -/
def execute_task_cycle (capabilities : List (String × String))
    (outcome : String → PyVal × Rat) (ts : String) (st : ReflState) : ReflState :=
  capabilities.foldl
    (fun st cap =>
      let r := outcome cap.1
      match bindCall log_performance_params
          [PyVal.str cap.1, r.1, PyVal.num r.2]
          [("category", PyVal.str "capability_execution")] with
      | some _ => log_performance st ts cap.1 r.1 r.2
      | Option.none => st)
    st

/-! ## ai_core.py: the insight dispatcher -/

/-- Occurrence of one character list inside another, at any position. -/
def hasInfix : List Char → List Char → Bool
  | [], p => p.isEmpty
  | c :: t, p => p.isPrefixOf (c :: t) || hasInfix t p

/-- Model of the Python substring test `pat in s` used by `act_on_insights`. -/
def strContains (s pat : String) : Bool :=
  hasInfix s.data pat.data

/-- The value under `trend_analysis` in an analysis dict, as the dispatcher
reads it: `trend.get("trend_direction")` and `trend.get("trend_strength", 0)`. -/
structure TrendInfo where
  trend_direction : Option String
  trend_strength : Option Rat
  slope : Option Rat
  deriving Repr, DecidableEq

/-- The analysis dict handed to `AICore.act_on_insights`, restricted to the
keys the dispatcher reads, each through `analysis.get(key, default)`. -/
structure AnalysisReport where
  trend_analysis : Option TrendInfo
  anomalies : List Bool
  areas_for_improvement : List String
  deriving Repr, DecidableEq

/-- The corrective handlers `act_on_insights` can invoke, each with the
sub-object it receives. -/
inductive InsightAction where
  | decreasingPerformance
  | anomaliesAction
  | optimizeSlow (s : String)
  | improveReliability (s : String)
  | considerNew (s : String)
  deriving Repr, DecidableEq, BEq

/-- The trend condition of `act_on_insights`:
`trend.get('trend_direction') == 'decreasing' and trend.get('trend_strength', 0) > 0.5`. -/
def trendMatched (a : AnalysisReport) : Bool :=
  let trend := a.trend_analysis.getD ⟨Option.none, Option.none, Option.none⟩
  trend.trend_direction = some "decreasing" && (trend.trend_strength.getD 0) > mkRat 1 2

/-- The `for improvement in ...` loop of `act_on_insights`: route each
suggestion string by substring match; the handler call sits inside a
`try`/`except` that logs and continues, so the invocation happens (and is
recorded in the trace) whether or not the handler raises, and a raising
handler never stops the loop. -/
def improvementsLoop (acc : List InsightAction) :
    List String → List InsightAction
  | [] => acc
  | s :: rest =>
    let acc' :=
      if strContains s "Optimize performance for tasks" then
        acc ++ [InsightAction.optimizeSlow s]
      else if strContains s "Improve reliability of capabilities" then
        acc ++ [InsightAction.improveReliability s]
      else if strContains s "Consider adding new capabilities" then
        acc ++ [InsightAction.considerNew s]
      else acc
    improvementsLoop acc' rest

/-- `AICore.act_on_insights`, parameterised by which handler invocations
raise (`hFail`; handler bodies are out of scope).  Returns the trace of
invoked handlers and whether the dispatcher itself propagated an exception:
the trend and anomaly handler calls are not wrapped in any `try`, so a raise
there escapes `act_on_insights` at once; only the per-improvement calls are
caught. -/
def act_on_insights (a : AnalysisReport) (hFail : InsightAction → Bool) :
    List InsightAction × Bool :=
  if trendMatched a && hFail InsightAction.decreasingPerformance then
    ([InsightAction.decreasingPerformance], true)
  else
    let acts0 := if trendMatched a then [InsightAction.decreasingPerformance] else []
    let anomMatched := a.anomalies.any id
    if anomMatched && hFail InsightAction.anomaliesAction then
      (acts0 ++ [InsightAction.anomaliesAction], true)
    else
      let acts1 := acts0 ++ (if anomMatched then [InsightAction.anomaliesAction] else [])
      (improvementsLoop acts1 a.areas_for_improvement, false)

/-! ## capability_loader.py -/

/-- `CapabilityLoader.load_capability_module`: walk the `dir()` listing of the
executed module (symbol name paired with whether the bound object is
callable) and register every callable whose name does not start with two
underscores under the qualified name `module_name + "." + item_name`; the
registered value (the object itself) is modelled by the symbol name. -/
def load_capability_module (module_name : String) (symbols : List (String × Bool))
    (caps : List (String × String)) : List (String × String) :=
  symbols.foldl
    (fun caps sym =>
      if sym.2 && !(strStartsWith sym.1 "__") then
        dictSet caps (module_name ++ "." ++ sym.1) sym.1
      else caps)
    caps

/-! ## ai_core.py: wait and the main loop -/

/-- Clock polls performed by the `while` loop of `AICore.wait` under a clock
that advances one second per `get_timestamp()` call, starting from an
already-elapsed difference `elapsed`: the loop re-reads the clock until the
observed difference reaches `seconds`. -/
def waitLoopCalls (seconds : Nat) : Nat → Nat
  | elapsed =>
    if h : elapsed < seconds then waitLoopCalls seconds (elapsed + 1) + 1
    else 0
termination_by elapsed => seconds - elapsed
decreasing_by omega

/-- Total `get_timestamp()` calls made by `AICore.wait(seconds)` under the
one-second-per-call clock: the two initial reads (after which the observed
difference is already 1) plus one read per iteration of the polling loop.
The body of `wait` consults nothing but the clock — in particular it never
reads `self.running`. -/
def wait_calls (seconds : Nat) : Nat :=
  2 + waitLoopCalls seconds 1

/-- The `while self.running` loop of `AICore.start`, abstracted to which
iterations run: the flag is read once per iteration, at the top; the body
(cycle, reflection, and the full `wait(60)`) contains no further read of the
flag, so a `stop()` arriving anywhere inside iteration `k` (recorded by
`stopDuring k`) takes effect only at the next top-of-loop check.  Returns the
indices of the iterations whose body ran to completion; `fuel` bounds the
otherwise endless loop. -/
def loopRun (stopDuring : Nat → Bool) : Nat → Bool → Nat → List Nat
  | 0, _, _ => []
  | fuel + 1, running, k =>
    if running then k :: loopRun stopDuring fuel (!stopDuring k) (k + 1)
    else []

/-- `AICore.start` with an external schedule of `stop()` requests: the list of
fully-executed cycle indices. -/
def start_cycles (stopDuring : Nat → Bool) (fuel : Nat) : List Nat :=
  loopRun stopDuring fuel true 0

/-! ## Operation sequences over the registry (for the catalog invariant) -/

/-- One catalog-mutating registry call. -/
inductive RegOp where
  | add (name description : String)
  | remove (name : String)
  deriving Repr, DecidableEq

/-- The in-memory catalog after one registry call whose persistence write
succeeds. -/
def applyOp (loader : Loader) (caps : Catalog) : RegOp → Catalog
  | RegOp.add n d => (add_capability loader caps n d true).2
  | RegOp.remove n => (remove_capability caps n true).2

/-- The catalog reached from empty by a sequence of registry calls with
successful persistence. -/
def runOps (loader : Loader) (ops : List RegOp) : Catalog :=
  ops.foldl (applyOp loader) []

/-- Modelled from the claim wording, for comparison with the implementation:
one step of the name-set a reader expects — an `add` whose validation would
succeed (non-blank name, not already present, resolvable by the loader)
appends the name, a `remove` erases it. -/
def catalogSpecStep (loader : Loader) (acc : List String) : RegOp → List String
  | RegOp.add n _ =>
    if pyStrip n ≠ "" ∧ n ∉ acc ∧ (dictGet loader n).isSome = true then acc ++ [n]
    else acc
  | RegOp.remove n => acc.erase n

/-- Modelled from the claim wording: the names whose add succeeded and that
have not since been removed. -/
def catalogSpecNames (loader : Loader) (ops : List RegOp) : List String :=
  ops.foldl (catalogSpecStep loader) []

/-! ## Theorems -/

/-- Helper: the call
`log_performance(name, result, execution_time, category=...)` made by
`execute_task_cycle` always raises `TypeError`: `category` is not a parameter
of `SelfReflection.log_performance`. -/
theorem bindCall_unexpected_category (a b c v : PyVal) :
    bindCall log_performance_params [a, b, c] [("category", v)] = Option.none := by
  rfl

/-- **C2** is a code bug: the spec (and the repository's own tests) require
exactly one performance entry per listed capability per cycle, failures
included, but every `log_performance` call `execute_task_cycle` makes passes
the keyword argument `category`, which `SelfReflection.log_performance` does
not accept; the resulting `TypeError` is caught by the per-capability
`except`, so a cycle records no entry at all: the reflection state after a
cycle is always the state before it, for every catalog and every capability
outcome. -/
theorem spec_c2_cycle_records_no_entries (capabilities : List (String × String))
    (outcome : String → PyVal × Rat) (ts : String) (st : ReflState) :
    execute_task_cycle capabilities outcome ts st = st := by
  induction capabilities generalizing st with
  | nil => rfl
  | cons cap rest ih =>
    have h := bindCall_unexpected_category (PyVal.str cap.1) (outcome cap.1).1
      (PyVal.num (outcome cap.1).2) (PyVal.str "capability_execution")
    simp only [execute_task_cycle, List.foldl_cons, h]
    exact ih st

/-- **C4** is a code bug: `SelfReflection.log_performance` performs no
validation, so a call with an empty capability name, and a call with a
negative execution time, both succeed and append the malformed entry to the
history (the spec and the test `test_log_performance_invalid_input` require
`SelfReflectionError` and an unchanged history instead). -/
theorem spec_c4_log_performance_accepts_malformed :
    (log_performance ⟨[], []⟩ "t0" "" PyVal.none 1).performance_logs =
        [⟨"t0", "", PyVal.none, 1⟩] ∧
    (log_performance ⟨[], []⟩ "t0" "task" PyVal.none (-1)).performance_logs =
        [⟨"t0", "task", PyVal.none, -1⟩] :=
  ⟨rfl, rfl⟩

/-- **C3** is a code bug: for every catalog, saving through
`_save_capabilities` writes the record list as the single `performance_data`
value of one snapshot file, `load_performance_data` then returns that whole
list as one element, and `_load_capabilities` calls `.get` on it — a Python
list — so reloading raises `AttributeError` instead of reconstructing the
name-description pairs. -/
theorem spec_c3_roundtrip_attribute_error (loader : Loader) (caps : Catalog) :
    load_capabilities loader []
        (load_performance_data [save_capabilities caps "20240101_000000"]) =
      Except.error LoadCapError.attributeError := by
  rfl

/-- Helper: `load_performance_data` distributes over list append. -/
theorem load_performance_data_append (a b : List DataFile) :
    load_performance_data (a ++ b) =
      load_performance_data a ++ load_performance_data b := by
  induction a with
  | nil => rfl
  | cons f fs ih =>
    simp only [List.cons_append, load_performance_data]
    by_cases h1 : isPerfFilename f.filename = true
    · by_cases h2 : is_compatible_version f = true
      · simp [h1, h2, ih]
      · simp [h1, h2, ih]
    · simp [h1, ih]

/-- **C9** (confirmed): a persisted snapshot whose version does not match
`DATA_VERSION` is skipped by `load_performance_data` — it contributes no
element to the result and raises nothing (the load is total) — while a
matching `performance_*.json` snapshot contributes exactly its
`performance_data` value, in file order. -/
theorem spec_c9_version_skip (pre post : List DataFile) (f : DataFile) :
    (is_compatible_version f = false →
      load_performance_data (pre ++ f :: post) =
        load_performance_data (pre ++ post)) ∧
    (is_compatible_version f = true → isPerfFilename f.filename = true →
      load_performance_data (pre ++ f :: post) =
        load_performance_data pre ++
          f.payload.getD (PerfPayload.pdict []) :: load_performance_data post) := by
  constructor
  · intro h
    rw [load_performance_data_append, load_performance_data_append]
    congr 1
    show load_performance_data (f :: post) = load_performance_data post
    by_cases h1 : isPerfFilename f.filename = true
    · simp [load_performance_data, h1, h]
    · simp [load_performance_data, h1]
  · intro h hname
    rw [load_performance_data_append]
    congr 1
    show load_performance_data (f :: post) = _
    simp [load_performance_data, hname, h]

/-- Witness for the C9 theorem at concrete snapshots: a `0.9`-versioned file
between two current ones is dropped; a current file is loaded with its
payload. -/
theorem spec_c9_version_skip_witness :
    (load_performance_data
        ([⟨"performance_a.json", some "1.0", some (PerfPayload.pdict [])⟩] ++
          (⟨"performance_b.json", some "0.9", some (PerfPayload.pdict [("x", PyVal.num 1)])⟩ : DataFile) ::
            [⟨"performance_c.json", some "1.0", some (PerfPayload.pdict [])⟩]) =
      load_performance_data
        ([⟨"performance_a.json", some "1.0", some (PerfPayload.pdict [])⟩] ++
          [⟨"performance_c.json", some "1.0", some (PerfPayload.pdict [])⟩])) ∧
    (load_performance_data
        ([] ++ (⟨"performance_a.json", some "1.0", some (PerfPayload.pdict [])⟩ : DataFile) :: []) =
      load_performance_data [] ++
        (some (PerfPayload.pdict [])).getD (PerfPayload.pdict []) :: load_performance_data []) :=
  ⟨(spec_c9_version_skip
      [⟨"performance_a.json", some "1.0", some (PerfPayload.pdict [])⟩]
      [⟨"performance_c.json", some "1.0", some (PerfPayload.pdict [])⟩]
      ⟨"performance_b.json", some "0.9", some (PerfPayload.pdict [("x", PyVal.num 1)])⟩).1 rfl,
   (spec_c9_version_skip [] []
      ⟨"performance_a.json", some "1.0", some (PerfPayload.pdict [])⟩).2 rfl rfl⟩

/-- **C10** (confirmed): with an empty project-management log list,
`analyze_project_management_performance` returns the no-data message dict, so
`suggest_improvements` reads `completion_rate` through a `.get` defaulting to
`0`, which is below the `0.8` threshold — the suggestion
`Improve task completion rate in project management.` is therefore always
emitted, whatever the capability performance history. -/
theorem spec_c10_default_completion_suggestion (logs : List PerfLog) :
    ∃ l, suggest_improvements ⟨logs, []⟩ = Except.ok l ∧
      "Improve task completion rate in project management." ∈ l := by
  have hrate : (0 : Rat) < mkRat 4 5 := by decide
  have hzero : ¬ ((1 : Rat) < 0) := by decide
  have htok : ¬ ((10000 : Rat) < 0) := by decide
  unfold suggest_improvements
  have hpm : analyze_project_management_performance ⟨logs, []⟩ =
      Except.ok PMAnalysis.noData := rfl
  rw [hpm]
  rcases analyze_performance ⟨logs, []⟩ with _ | ⟨n, t, a⟩
  · refine ⟨_, rfl, ?_⟩
    simp [hrate, hzero, htok]
  · refine ⟨_, rfl, ?_⟩
    by_cases hgt : (1 : Rat) < a
    · simp [hrate, hgt, htok]
    · simp [hrate, hgt, htok]

/-- Counterexample to **C1** as stated: with loader `[("a", "h")]` and an
empty catalog, `add_capability "a"` with a failing persistence write raises
`CapabilityError` (from the `DataPersistenceError`), yet the in-memory
catalog is no longer empty — the entry assigned before the save is kept, so
a failed add does leave changed state. -/
theorem spec_c1_cex :
    (add_capability [("a", "h")] [] "a" "d" false).1 =
        Except.error RegError.persistence ∧
    (add_capability [("a", "h")] [] "a" "d" false).2 = [("a", ⟨"d", "h"⟩)] ∧
    ([] : Catalog) ≠ [("a", ⟨"d", "h"⟩)] :=
  ⟨rfl, rfl, by decide⟩

/-- **C1** (corrected): an add rejected by validation (blank name, name
already present, or handle not resolvable by the loader) leaves the catalog
unchanged; but when validation passes and only the persistence write fails,
the add raises while the new entry stays in the in-memory catalog — the
operation is atomic only up to persistence failure. -/
theorem spec_c1_amended (loader : Loader) (caps : Catalog)
    (name description : String) (saveOk : Bool) :
    (∀ e, (add_capability loader caps name description saveOk).1 = Except.error e →
      e ≠ RegError.persistence →
      (add_capability loader caps name description saveOk).2 = caps) ∧
    ((add_capability loader caps name description saveOk).1 =
        Except.error RegError.persistence →
      dictGet caps name = Option.none ∧ saveOk = false ∧
      ∃ f, dictGet loader name = some f ∧
        (add_capability loader caps name description saveOk).2 =
          dictSet caps name ⟨description, f⟩) ∧
    ((add_capability loader caps name description saveOk).1 = Except.ok () →
      saveOk = true ∧
      ∃ f, dictGet loader name = some f ∧
        (add_capability loader caps name description saveOk).2 =
          dictSet caps name ⟨description, f⟩) := by
  by_cases h1 : pyStrip name = ""
  · simp [add_capability, h1]
  · by_cases h2 : (dictGet caps name).isSome = true
    · simp [add_capability, h1, h2]
    · rcases hl : dictGet loader name with _ | f
      · simp [add_capability, h1, h2, hl]
      · have hEq : add_capability loader caps name description saveOk =
            (if saveOk then Except.ok () else Except.error RegError.persistence,
              dictSet caps name ⟨description, f⟩) := by
          cases saveOk <;> simp [add_capability, h1, h2, hl]
        cases saveOk
        · rw [hEq]
          refine ⟨?_, ?_, ?_⟩
          · intro e he hne
            simp at he
            exact absurd he.symm hne
          · intro _
            exact ⟨Option.not_isSome_iff_eq_none.mp h2, rfl, f, rfl, rfl⟩
          · intro he
            simp at he
        · rw [hEq]
          refine ⟨?_, ?_, ?_⟩
          · intro e he _
            simp at he
          · intro he
            simp at he
          · intro _
            exact ⟨rfl, f, rfl, rfl⟩

/-- Witness for the C1 theorem: a duplicate add leaves the catalog unchanged;
an add whose save fails keeps the new entry; an add whose save succeeds
stores the entry. -/
theorem spec_c1_amended_witness :
    ((add_capability [("a", "h")] [("b", ⟨"x", "h"⟩)] "b" "y" true).2 =
        [("b", ⟨"x", "h"⟩)]) ∧
    (dictGet ([("b", ⟨"x", "h"⟩)] : Catalog) "a" = Option.none ∧ false = false ∧
      ∃ f, dictGet [("a", "h")] "a" = some f ∧
        (add_capability [("a", "h")] [("b", ⟨"x", "h"⟩)] "a" "d" false).2 =
          dictSet [("b", ⟨"x", "h"⟩)] "a" ⟨"d", f⟩) ∧
    (true = true ∧
      ∃ f, dictGet [("a", "h")] "a" = some f ∧
        (add_capability [("a", "h")] [("b", ⟨"x", "h"⟩)] "a" "d" true).2 =
          dictSet [("b", ⟨"x", "h"⟩)] "a" ⟨"d", f⟩) :=
  ⟨(spec_c1_amended [("a", "h")] [("b", ⟨"x", "h"⟩)] "b" "y" true).1
      (RegError.duplicate "b") rfl (by decide),
   (spec_c1_amended [("a", "h")] [("b", ⟨"x", "h"⟩)] "a" "d" false).2.1 rfl,
   (spec_c1_amended [("a", "h")] [("b", ⟨"x", "h"⟩)] "a" "d" true).2.2 rfl⟩

/-- Helper: a dict lookup succeeds exactly when the key occurs among the
keys. -/
theorem dictGet_isSome_iff (l : List (String × α)) (k : String) :
    (dictGet l k).isSome = true ↔ k ∈ l.map Prod.fst := by
  induction l with
  | nil => simp [dictGet]
  | cons p rest ih =>
    obtain ⟨k', v⟩ := p
    by_cases h : k' = k
    · subst h; simp [dictGet]
    · simp [dictGet, h, Ne.symm h, ih]

/-- Helper: assigning an absent key appends it to the key list. -/
theorem map_fst_dictSet_new (l : List (String × α)) (k : String) (v : α)
    (h : ¬ k ∈ l.map Prod.fst) :
    (dictSet l k v).map Prod.fst = l.map Prod.fst ++ [k] := by
  induction l with
  | nil => simp [dictSet]
  | cons p rest ih =>
    obtain ⟨k', v'⟩ := p
    have h1 : ¬ k' = k := by
      rintro rfl
      exact h (by simp)
    have h2 : ¬ k ∈ rest.map Prod.fst := fun hm => h (by simp [hm])
    simp [dictSet, h1, ih h2]

/-- Helper: deleting a key erases it from the key list. -/
theorem map_fst_dictDel (l : List (String × α)) (k : String) :
    (dictDel l k).map Prod.fst = (l.map Prod.fst).erase k := by
  induction l with
  | nil => simp [dictDel]
  | cons p rest ih =>
    obtain ⟨k', v'⟩ := p
    by_cases h : k' = k
    · subst h
      simp [dictDel, List.erase_cons_head]
    · simp [dictDel, h, ih, List.erase_cons_tail (not_beq_of_ne h)]

/-- Helper: one registry call (with a successful persistence write) keeps the
key list duplicate-free and transforms it exactly as the claim-side step
does. -/
theorem applyOp_keys (loader : Loader) (caps : Catalog) (op : RegOp)
    (hnd : (caps.map Prod.fst).Nodup) :
    (applyOp loader caps op).map Prod.fst =
      catalogSpecStep loader (caps.map Prod.fst) op ∧
    ((applyOp loader caps op).map Prod.fst).Nodup := by
  cases op with
  | add n d =>
    by_cases h1 : pyStrip n = ""
    · simp [applyOp, add_capability, catalogSpecStep, h1, hnd]
    · by_cases h2 : (dictGet caps n).isSome = true
      · have hmem : n ∈ caps.map Prod.fst := (dictGet_isSome_iff caps n).mp h2
        simp [applyOp, add_capability, catalogSpecStep, h1, h2, hmem, hnd]
      · have hnm : ¬ n ∈ caps.map Prod.fst :=
          fun hm => h2 ((dictGet_isSome_iff caps n).mpr hm)
        rcases hl : dictGet loader n with _ | f
        · simp [applyOp, add_capability, catalogSpecStep, h1, h2, hl, hnm, hnd]
        · have hkeys : (applyOp loader caps (RegOp.add n d)).map Prod.fst =
              caps.map Prod.fst ++ [n] := by
            simp [applyOp, add_capability, h1, h2, hl,
              map_fst_dictSet_new caps n ⟨d, f⟩ hnm]
          refine ⟨?_, ?_⟩
          · rw [hkeys]
            simp [catalogSpecStep, h1, hnm, hl]
          · rw [hkeys]
            simp [List.nodup_append, hnd, hnm]
  | remove n =>
    by_cases h : (dictGet caps n).isSome = true
    · refine ⟨?_, ?_⟩
      · simp [applyOp, remove_capability, catalogSpecStep, h, map_fst_dictDel]
      · simp only [applyOp, remove_capability, h, if_true]
        rw [map_fst_dictDel]
        exact hnd.erase n
    · have hnm : ¬ n ∈ caps.map Prod.fst :=
        fun hm => h ((dictGet_isSome_iff caps n).mpr hm)
      refine ⟨?_, ?_⟩
      · simp [applyOp, remove_capability, catalogSpecStep, h,
          List.erase_of_not_mem hnm]
      · simp [applyOp, remove_capability, h, hnd]

/-- Helper: the invariant carried along a whole operation sequence. -/
theorem runOps_fold (loader : Loader) (ops : List RegOp) :
    ∀ caps : Catalog, (caps.map Prod.fst).Nodup →
      (ops.foldl (applyOp loader) caps).map Prod.fst =
          ops.foldl (catalogSpecStep loader) (caps.map Prod.fst) ∧
        ((ops.foldl (applyOp loader) caps).map Prod.fst).Nodup := by
  induction ops with
  | nil => exact fun caps h => ⟨rfl, h⟩
  | cons op rest ih =>
    intro caps h
    obtain ⟨he, hn⟩ := applyOp_keys loader caps op h
    obtain ⟨ihe, ihn⟩ := ih (applyOp loader caps op) hn
    exact ⟨by simpa [he] using ihe, by simpa using ihn⟩

/-- **C5** (confirmed): starting from the empty catalog, after any finite
sequence of add and remove calls (persistence succeeding) the key list of the
catalog is duplicate-free and equals exactly the names whose add succeeded
and that were not removed since; moreover an add under a name already present
fails with a `CapabilityError`, leaves the catalog unchanged, and the catalog
still holds exactly one entry under that name. -/
theorem spec_c5_catalog_integrity (loader : Loader) (ops : List RegOp) :
    ((runOps loader ops).map Prod.fst).Nodup ∧
    (runOps loader ops).map Prod.fst = catalogSpecNames loader ops ∧
    (∀ name d, (dictGet (runOps loader ops) name).isSome = true →
      (∃ e, (add_capability loader (runOps loader ops) name d true).1 =
        Except.error e) ∧
      (add_capability loader (runOps loader ops) name d true).2 =
        runOps loader ops ∧
      ((add_capability loader (runOps loader ops) name d true).2.map
        Prod.fst).count name = 1) := by
  obtain ⟨he, hn⟩ := runOps_fold loader ops [] (by simp)
  refine ⟨hn, he, ?_⟩
  intro name d hmem
  have hinmem : name ∈ (runOps loader ops).map Prod.fst :=
    (dictGet_isSome_iff _ name).mp hmem
  have hcount : ((runOps loader ops).map Prod.fst).count name = 1 :=
    List.count_eq_one_of_mem hn hinmem
  by_cases h1 : pyStrip name = ""
  · have hEq : add_capability loader (runOps loader ops) name d true =
        (Except.error RegError.invalidName, runOps loader ops) := by
      simp [add_capability, h1]
    rw [hEq]
    exact ⟨⟨RegError.invalidName, rfl⟩, rfl, hcount⟩
  · have hEq : add_capability loader (runOps loader ops) name d true =
        (Except.error (RegError.duplicate name), runOps loader ops) := by
      simp [add_capability, h1, hmem]
    rw [hEq]
    exact ⟨⟨RegError.duplicate name, rfl⟩, rfl, hcount⟩

/-- Witness for the C5 theorem at a concrete history: after adding `a`, a
second add of `a` fails, leaves the catalog as it was, and the catalog holds
exactly one entry named `a`. -/
theorem spec_c5_catalog_integrity_witness :
    (∃ e, (add_capability [("a", "h")]
        (runOps [("a", "h")] [RegOp.add "a" "d"]) "a" "x" true).1 =
      Except.error e) ∧
    (add_capability [("a", "h")]
        (runOps [("a", "h")] [RegOp.add "a" "d"]) "a" "x" true).2 =
      runOps [("a", "h")] [RegOp.add "a" "d"] ∧
    ((add_capability [("a", "h")]
        (runOps [("a", "h")] [RegOp.add "a" "d"]) "a" "x" true).2.map
      Prod.fst).count "a" = 1 :=
  (spec_c5_catalog_integrity [("a", "h")] [RegOp.add "a" "d"]).2.2 "a" "x"
    (by decide)

/-- Helper: the polling loop of `wait` reads the clock once per remaining
second. -/
theorem waitLoopCalls_eq (s : Nat) : ∀ e, waitLoopCalls s e = s - e := by
  have key : ∀ n e, s - e = n → waitLoopCalls s e = s - e := by
    intro n
    induction n with
    | zero =>
      intro e h
      unfold waitLoopCalls
      have hlt : ¬ e < s := by omega
      simp [hlt]
      omega
    | succ n ih =>
      intro e h
      unfold waitLoopCalls
      have hlt : e < s := by omega
      simp [hlt]
      rw [ih (e + 1) (by omega)]
      omega
  exact fun e => key (s - e) e rfl

/-- Counterexample to **C6** as stated: the inter-cycle wait is a busy spin,
not a blocking pause — under a clock advancing one second per read,
`wait(60)` reads the clock 61 separate times, and the number of reads grows
with the requested duration instead of staying bounded; the polling loop's
exit condition involves only the clock, never the stop flag, so `stop()`
cannot shorten the wait itself. -/
theorem spec_c6_cex : wait_calls 60 = 61 ∧ wait_calls 2 < wait_calls 60 := by
  have h60 := waitLoopCalls_eq 60 1
  have h2 := waitLoopCalls_eq 2 1
  simp [wait_calls, h60, h2]

/-- Helper: once the loop observes a cleared flag at the top of an iteration
it exits immediately. -/
theorem loopRun_not_running (stopDuring : Nat → Bool) (fuel k : Nat) :
    loopRun stopDuring fuel false k = [] := by
  cases fuel <;> simp [loopRun]

/-- Helper: with a stop request arriving during iteration `j`, the loop runs
every iteration from `k` through `j` to completion and none after. -/
theorem loopRun_stopAt (j : Nat) :
    ∀ fuel k, k ≤ j → j + 1 - k ≤ fuel →
      loopRun (fun i => i == j) fuel true k = List.range' k (j + 1 - k) := by
  intro fuel
  induction fuel with
  | zero =>
    intro k hk hf
    omega
  | succ fuel ih =>
    intro k hk hf
    by_cases hkj : k = j
    · subst hkj
      have hone : k + 1 - k = 1 := by omega
      simp [loopRun, loopRun_not_running, hone, List.range']
    · have hkj2 : (k == j) = false := by simp [hkj]
      have hsplit : j + 1 - k = (j - k) + 1 := by omega
      have hnext : j + 1 - (k + 1) = j - k := by omega
      simp only [loopRun, hkj2, Bool.not_false, if_true]
      rw [ih (k + 1) (by omega) (by omega), hnext, hsplit, List.range'_succ]

/-- **C6** (corrected): `stop()` is cooperative and its flag is read only at
the top of the loop, so a stop requested during iteration `j` lets cycles
`0..j` all run to completion and prevents cycle `j + 1`; but the inter-cycle
wait is a busy-polling loop on the clock — `wait(s)` performs `s + 1` clock
reads under a one-second-per-read clock, runs its full duration, and is not
shortened by `stop()` (its loop condition never consults the flag). -/
theorem spec_c6_amended :
    (∀ j fuel, j + 1 ≤ fuel →
      start_cycles (fun i => i == j) fuel = List.range (j + 1)) ∧
    (∀ s, 1 ≤ s → wait_calls s = s + 1) := by
  constructor
  · intro j fuel hf
    unfold start_cycles
    rw [loopRun_stopAt j fuel 0 (by omega) (by omega)]
    simp [List.range_eq_range']
  · intro s hs
    rw [wait_calls, waitLoopCalls_eq]
    omega

/-- Witness for the C6 theorem: a stop during cycle 2 yields exactly the
three complete cycles 0, 1, 2; a 60-second wait makes 61 clock reads. -/
theorem spec_c6_amended_witness :
    start_cycles (fun i => i == 2) 10 = List.range 3 ∧ wait_calls 60 = 60 + 1 :=
  ⟨spec_c6_amended.1 2 10 (by decide), spec_c6_amended.2 60 (by decide)⟩

/-- Counterexample to **C7** as stated: on a report with a strong decreasing
trend, an anomaly, and a matching improvement string, a failure of the trend
handler escapes the dispatcher at once — the anomaly handler and the
improvement handler are never invoked, so one failing handler does prevent
the evaluation of the remaining matched insights. -/
theorem spec_c7_cex :
    act_on_insights
        ⟨some ⟨some "decreasing", some 1, some 0⟩, [true],
          ["Improve reliability of capabilities: x"]⟩
        (fun act => act == InsightAction.decreasingPerformance) =
      ([InsightAction.decreasingPerformance], true) ∧
    InsightAction.anomaliesAction ∉
      (act_on_insights
        ⟨some ⟨some "decreasing", some 1, some 0⟩, [true],
          ["Improve reliability of capabilities: x"]⟩
        (fun act => act == InsightAction.decreasingPerformance)).1 ∧
    InsightAction.improveReliability "Improve reliability of capabilities: x" ∉
      (act_on_insights
        ⟨some ⟨some "decreasing", some 1, some 0⟩, [true],
          ["Improve reliability of capabilities: x"]⟩
        (fun act => act == InsightAction.decreasingPerformance)).1 ∧
    trendMatched ⟨some ⟨some "decreasing", some 1, some 0⟩, [true],
      ["Improve reliability of capabilities: x"]⟩ = true ∧
    [true].any id = true := by
  have h : act_on_insights
      ⟨some ⟨some "decreasing", some 1, some 0⟩, [true],
        ["Improve reliability of capabilities: x"]⟩
      (fun act => act == InsightAction.decreasingPerformance) =
      ([InsightAction.decreasingPerformance], true) := by decide
  refine ⟨h, ?_, ?_, by decide, rfl⟩
  · rw [h]
    simp
  · rw [h]
    simp

/-- **C7** (corrected): only the per-improvement handler calls sit inside a
`try`/`except`; when the trend and anomaly handlers do not raise, the
dispatcher completes with the same handler trace whatever the improvement
handlers do (their failures are caught per insight), but a raising trend
handler aborts the dispatcher immediately after its own invocation,
preventing the anomaly handler and every improvement handler. -/
theorem spec_c7_amended (a : AnalysisReport) (hFail : InsightAction → Bool) :
    (hFail InsightAction.decreasingPerformance = false →
      hFail InsightAction.anomaliesAction = false →
      act_on_insights a hFail = act_on_insights a (fun _ => false) ∧
      (act_on_insights a hFail).2 = false) ∧
    (trendMatched a = true → hFail InsightAction.decreasingPerformance = true →
      act_on_insights a hFail = ([InsightAction.decreasingPerformance], true)) := by
  constructor
  · intro h1 h2
    refine ⟨?_, ?_⟩ <;> simp [act_on_insights, h1, h2]
  · intro ht hf
    simp [act_on_insights, ht, hf]

/-- Witness for the C7 theorem: non-raising trend and anomaly handlers give
an unaborted dispatch, and a raising trend handler on a matched trend aborts
after its sole invocation. -/
theorem spec_c7_amended_witness :
    (act_on_insights ⟨Option.none, [], []⟩ (fun _ => false) =
        act_on_insights ⟨Option.none, [], []⟩ (fun _ => false) ∧
      (act_on_insights ⟨Option.none, [], []⟩ (fun _ => false)).2 = false) ∧
    act_on_insights ⟨some ⟨some "decreasing", some 1, some 0⟩, [true], []⟩
        (fun act => act == InsightAction.decreasingPerformance) =
      ([InsightAction.decreasingPerformance], true) :=
  ⟨(spec_c7_amended ⟨Option.none, [], []⟩ (fun _ => false)).1 rfl rfl,
   (spec_c7_amended ⟨some ⟨some "decreasing", some 1, some 0⟩, [true], []⟩
      (fun act => act == InsightAction.decreasingPerformance)).2 (by decide) rfl⟩

/-- Counterexample to **C8** as stated: a callable symbol named `_helper` —
reserved/private by the leading-underscore convention — is nevertheless
registered by `load_capability_module`, because the source only excludes
names starting with two underscores. -/
theorem spec_c8_cex :
    load_capability_module "m" [("_helper", true)] [] =
        [("m._helper", "_helper")] ∧
    strStartsWith "_helper" "_" = true ∧
    strStartsWith "_helper" "__" = false := by
  decide

/-- Helper: the key set of a dict after an assignment. -/
theorem mem_map_fst_dictSet (l : List (String × α)) (k name : String) (v : α) :
    name ∈ (dictSet l k v).map Prod.fst ↔
      name = k ∨ name ∈ l.map Prod.fst := by
  induction l with
  | nil => simp [dictSet]
  | cons p rest ih =>
    obtain ⟨k', v'⟩ := p
    by_cases h : k' = k
    · subst h
      simp [dictSet]
    · simp [dictSet, h, ih]
      tauto

/-- Helper: the qualified names registered by `load_capability_module`,
over any starting capability dict. -/
theorem mem_keys_load_capability_module (m : String) :
    ∀ (syms : List (String × Bool)) (caps : List (String × String)) (name : String),
      name ∈ (load_capability_module m syms caps).map Prod.fst ↔
        name ∈ caps.map Prod.fst ∨
          ∃ s ∈ syms, s.2 = true ∧ strStartsWith s.1 "__" = false ∧
            name = m ++ "." ++ s.1 := by
  intro syms
  induction syms with
  | nil =>
    intro caps name
    simp [load_capability_module]
  | cons sym rest ih =>
    intro caps name
    obtain ⟨sname, scall⟩ := sym
    by_cases hs : scall = true
    · by_cases hu : strStartsWith sname "__" = true
      · have hstep : load_capability_module m ((sname, scall) :: rest) caps =
            load_capability_module m rest caps := by
          simp [load_capability_module, hs, hu]
        rw [hstep, ih]
        constructor
        · rintro (h | ⟨s, hsm, h2, h3, h4⟩)
          · exact Or.inl h
          · exact Or.inr ⟨s, List.mem_cons_of_mem _ hsm, h2, h3, h4⟩
        · rintro (h | ⟨s, hsm, h2, h3, h4⟩)
          · exact Or.inl h
          · rcases List.mem_cons.mp hsm with rfl | hsm2
            · rw [hu] at h3
              exact absurd h3 (by simp)
            · exact Or.inr ⟨s, hsm2, h2, h3, h4⟩
      · have hstep : load_capability_module m ((sname, scall) :: rest) caps =
            load_capability_module m rest
              (dictSet caps (m ++ "." ++ sname) sname) := by
          simp [load_capability_module, hs, hu]
        rw [hstep, ih, mem_map_fst_dictSet]
        constructor
        · rintro ((rfl | h) | ⟨s, hsm, h2, h3, h4⟩)
          · exact Or.inr ⟨(sname, scall), List.mem_cons_self _ _, hs,
              by simpa using hu, rfl⟩
          · exact Or.inl h
          · exact Or.inr ⟨s, List.mem_cons_of_mem _ hsm, h2, h3, h4⟩
        · rintro (h | ⟨s, hsm, h2, h3, h4⟩)
          · exact Or.inl (Or.inr h)
          · rcases List.mem_cons.mp hsm with rfl | hsm2
            · exact Or.inl (Or.inl h4)
            · exact Or.inr ⟨s, hsm2, h2, h3, h4⟩
    · have hs2 : scall = false := by
        revert hs
        cases scall <;> simp
      have hstep : load_capability_module m ((sname, scall) :: rest) caps =
          load_capability_module m rest caps := by
        simp [load_capability_module, hs2]
      rw [hstep, ih]
      constructor
      · rintro (h | ⟨s, hsm, h2, h3, h4⟩)
        · exact Or.inl h
        · exact Or.inr ⟨s, List.mem_cons_of_mem _ hsm, h2, h3, h4⟩
      · rintro (h | ⟨s, hsm, h2, h3, h4⟩)
        · exact Or.inl h
        · rcases List.mem_cons.mp hsm with rfl | hsm2
          · rw [hs2] at h2
            exact absurd h2 (by simp)
          · exact Or.inr ⟨s, hsm2, h2, h3, h4⟩

/-- **C8** (corrected): a qualified name `module.symbol` is registered by the
loader exactly when the module exposes a callable symbol of that name whose
name does not start with two underscores — the dunder convention is the only
exclusion; a single leading underscore is not excluded. -/
theorem spec_c8_amended (module_name : String) (symbols : List (String × Bool))
    (name : String) :
    name ∈ (load_capability_module module_name symbols []).map Prod.fst ↔
      ∃ s ∈ symbols, s.2 = true ∧ strStartsWith s.1 "__" = false ∧
        name = module_name ++ "." ++ s.1 := by
  rw [mem_keys_load_capability_module]
  simp
